import Mathlib

/-!
Shallow embedding of the wakanda-lb load balancer (Rust) for verification.

The embedded code is the set of modules actually compiled into the binary
(declared in `src/main.rs`): `select_server` (round-robin and random
selectors over the shared healthy list), `background_health_checker`
(probe classification and per-cycle rebuild of the healthy list),
`http_client` (domain request/response/error types and the conversions
of `reqwest_http_client.rs`), and the `proxy_endpoint` handler plus the
`From` impls of `main.rs`.

Machine integers are modelled as `Nat` with explicit `% 2 ^ 64` where the
Rust code wraps (`usize::wrapping_add`); byte strings (`Bytes`) are
`List Nat`; fallible Rust code returns `Except`.
-/

/-- Width of `usize` on the 64-bit targets the binary is built for; the
round-robin counter is an `AtomicUsize` and wraps at this modulus. -/
def usizeSize : Nat := 2 ^ 64

/-- Mirrors `http_client::error::Error`: the only client-error kinds,
`Network(String)`, `InvalidRequest(String)`, `Timeout`. -/
inductive HttpClientError where
  | Network (msg : String)
  | InvalidRequest (msg : String)
  | Timeout
deriving DecidableEq, Repr

/-- Mirrors `select_server::error::Error`: `NoOneIsAlive` (empty healthy
list) and `PoisonedRead` (the `RwLock` read failed). -/
inductive SelectError where
  | NoOneIsAlive
  | PoisonedRead
deriving DecidableEq, Repr

/-- Mirrors `http_client::request::RequestMethod`: the five supported
outbound methods. -/
inductive RequestMethod where
  | Get
  | Post
  | Put
  | Delete
  | Patch
deriving DecidableEq, Repr

/-- Model of `http::Method` on the inbound side: the five methods the
proxy supports plus the remaining standard methods and extensions, which
`TryFrom<&Method> for RequestMethod` rejects. -/
inductive HttpMethod where
  | Get
  | Post
  | Put
  | Delete
  | Patch
  | Options
  | Head
  | Connect
  | Trace
  | Extension (s : String)
deriving DecidableEq, Repr

/-- Mirrors `http_client::request::RequestError` (named
`HttpClientRequestRequestError` at its use site): the only variant is
`UnsupportedMethod(String)`. -/
inductive RequestError where
  | UnsupportedMethod (s : String)
deriving DecidableEq, Repr

/-- Rendering of `http::Method` names, used in the `UnsupportedMethod`
message. -/
def methodName : HttpMethod → String
  | .Get => "GET"
  | .Post => "POST"
  | .Put => "PUT"
  | .Delete => "DELETE"
  | .Patch => "PATCH"
  | .Options => "OPTIONS"
  | .Head => "HEAD"
  | .Connect => "CONNECT"
  | .Trace => "TRACE"
  | .Extension s => s

/-- Mirrors `impl TryFrom<&Method> for RequestMethod` in
`reqwest_http_client.rs`: GET/POST/PUT/DELETE/PATCH map to the domain
method, everything else is `UnsupportedMethod`. -/
def tryIntoRequestMethod : HttpMethod → Except RequestError RequestMethod
  | .Get => .ok .Get
  | .Post => .ok .Post
  | .Put => .ok .Put
  | .Delete => .ok .Delete
  | .Patch => .ok .Patch
  | m => .error (.UnsupportedMethod (methodName m))

/-- Mirrors `impl From<RequestMethod> for reqwest::Method` in
`reqwest_http_client.rs`: the wire method handed to reqwest for each
domain method. -/
def reqwestMethodFrom : RequestMethod → HttpMethod
  | .Get => .Get
  | .Post => .Post
  | .Put => .Put
  | .Delete => .Delete
  | .Patch => .Patch

/-- Model of `http::HeaderValue`: the raw bytes together with the result
of `HeaderValue::to_str()` (`some s` when the bytes are a valid string,
`none` otherwise), which is the only observation the embedded code makes
of a header value. -/
structure HeaderValue where
  raw : List Nat
  toStr : Option String
deriving DecidableEq, Repr

/-- Model of inserting one key into a `HashMap<String, String>`: if the
key is present its value is replaced, otherwise the pair is appended.
The map is represented as an association list in insertion order. -/
def assocInsert (m : List (String × String)) (k v : String) :
    List (String × String) :=
  if m.any (fun p => p.1 == k) then
    m.map (fun p => if p.1 == k then (k, v) else p)
  else
    m ++ [(k, v)]

/-- Mirrors `impl From<&HeaderMap> for RequestHeaders` (and the identical
owned impl) in `reqwest_http_client.rs`:
`headers.iter().filter_map(|(k, v)| v.to_str().ok().map(...)).collect()`
into a `HashMap<String, String>`. Collecting into a `HashMap` keeps the
last value for a repeated key. -/
def headerMapToRequestHeaders (hm : List (String × HeaderValue)) :
    List (String × String) :=
  hm.foldl
    (fun acc p =>
      match p.2.toStr with
      | some s => assocInsert acc p.1 s
      | none => acc)
    []

/-- Mirrors `http_client::request::Request`: method, absolute url,
headers and body of one outbound call. -/
structure HttpClientRequest where
  method : RequestMethod
  url : String
  headers : List (String × String)
  body : List Nat
deriving DecidableEq, Repr

/-- Mirrors `http_client::response::Response`: status (`u16`), headers
and body of one upstream response. -/
structure HttpClientResponse where
  status : Nat
  headers : List (String × String)
  body : List Nat
deriving DecidableEq, Repr

/-- Model of an `axum` response as the handler builds it: status, the
headers added to the builder, and the body bytes. -/
structure AxumResponse where
  status : Nat
  headers : List (String × String)
  body : List Nat
deriving DecidableEq, Repr

/-- Bytes of a static string body (`Body::from(&str)`). -/
def strBytes (s : String) : List Nat :=
  s.toUTF8.toList.map (fun b => b.toNat)

/-- Model of `http::StatusCode::from_u16`: accepts exactly the values in
`[100, 1000)` (the `http` crate's validity range) and rejects the rest. -/
def statusFromU16 (s : Nat) : Option Nat :=
  if 100 ≤ s ∧ s < 1000 then some s else none

/-- Mirrors `impl From<HttpClientResponse> for Response<Body>` in
`main.rs`: `StatusCode::from_u16(status).unwrap_or(StatusCode::OK)`,
every header copied onto the builder, the body forwarded. -/
def responseFromClient (r : HttpClientResponse) : AxumResponse :=
  { status := (statusFromU16 r.status).getD 200
    headers := r.headers
    body := r.body }

/-- Mirrors `impl From<HttpClientError> for (StatusCode, &str)` in
`main.rs`. -/
def errorToStatusBody : HttpClientError → Nat × String
  | .Network _ => (502, "Network error")
  | .InvalidRequest _ => (400, "Invalid request")
  | .Timeout => (504, "Timeout")

/-- Probe timeout in seconds: `tokio::time::timeout(Duration::from_secs(5), ...)`
in `is_server_healthy`. -/
def probeTimeoutSecs : Nat := 5

/-- Outcome of one health probe as `is_server_healthy` observes it:
`tokio::time::timeout` either delivers the client's `Ok(response)`, the
client's `Err(error)`, or expires (`Err(Elapsed)`). -/
inductive ProbeResult where
  | response (status : Nat)
  | clientError (e : HttpClientError)
  | deadlineExpired
deriving DecidableEq, Repr

/-- Mirrors `TimedBackgroundChecker::is_server_healthy`: healthy exactly
when the probe delivered a response with status 200; any other status,
any client error, and deadline expiry are unhealthy. -/
def is_server_healthy : ProbeResult → Bool
  | .response s => s == 200
  | .clientError _ => false
  | .deadlineExpired => false

/-- Mirrors the rebuild step of `TimedBackgroundChecker::execute`: start
from an empty `Vec`, walk `all_servers` in configured order and push each
server whose probe this cycle was healthy; the result then replaces the
shared healthy list wholesale (`*guard = new_healthy_servers`). -/
def buildHealthyList (allServers : List String) (probe : String → ProbeResult) :
    List String :=
  allServers.foldl
    (fun acc server =>
      if is_server_healthy (probe server) then acc ++ [server] else acc)
    []

/-- Mirrors `RoundRobinSelectServer::execute`: on a poisoned lock return
`PoisonedRead`; on an empty list return `NoOneIsAlive` without touching
the counter; otherwise fetch-and-increment the wrapping counter and
return the element at `previous % len` together with the new counter. -/
def roundRobinExecute (poisoned : Bool) (targets : List String)
    (counter : Nat) : Except SelectError (String × Nat) :=
  if poisoned then .error .PoisonedRead
  else
    match targets with
    | [] => .error .NoOneIsAlive
    | t :: ts =>
      .ok ((t :: ts).get ⟨counter % (t :: ts).length,
             Nat.mod_lt _ (Nat.succ_pos _)⟩,
           (counter + 1) % usizeSize)

/-- Successive outputs of `n` round-robin selections starting from a
given counter value, threading the counter through; an error stops the
run (with a constant healthy list errors occur only when it is empty). -/
def rrOutputs (targets : List String) (counter : Nat) : Nat → List String
  | 0 => []
  | n + 1 =>
    match roundRobinExecute false targets counter with
    | .ok (s, c) => s :: rrOutputs targets c n
    | .error _ => []

/-- Mirrors `RandomSelectServer::execute`: on a poisoned lock return
`PoisonedRead`; on an empty list `NoOneIsAlive`; otherwise return the
element at `rand::rng().random_range(0..len)`, modelled by the oracle
`rng` which yields an index below any positive bound. -/
def randomExecute (rng : (n : Nat) → 0 < n → Fin n) (poisoned : Bool)
    (targets : List String) : Except SelectError String :=
  if poisoned then .error .PoisonedRead
  else
    if h : targets = [] then .error .NoOneIsAlive
    else .ok (targets.get (rng targets.length (List.length_pos.mpr h)))

/-- Inbound request parts as `proxy_endpoint` consumes them: the method,
the uri's path and query components, and the header map. -/
structure InboundParts where
  method : HttpMethod
  path : String
  query : Option String
  headers : List (String × HeaderValue)
deriving DecidableEq, Repr

/-- Result of one run of the proxy handler: the response returned to the
caller and the upstream request issued, `none` when no upstream call was
made. -/
structure HandlerOutput where
  response : AxumResponse
  upstreamRequest : Option HttpClientRequest
deriving DecidableEq, Repr

/-- Mirrors `proxy_endpoint` in `main.rs`, parametric in the selection
result, the buffered-body result (`axum::body::to_bytes`) and the
outbound dispatch (`state.http_client.execute`). The order is the
source's: selection, then url = `server ++ path` (query unused), then
header conversion, then body buffering, then method translation, then
dispatch; each failure short-circuits with the statuses shown. -/
def proxy_endpoint (selection : Except SelectError String)
    (inbound : InboundParts) (bodyRead : Except String (List Nat))
    (dispatch : HttpClientRequest → Except HttpClientError HttpClientResponse) :
    HandlerOutput :=
  match selection with
  | .error _ => ⟨⟨503, [], []⟩, none⟩
  | .ok server =>
    let url := server ++ inbound.path
    let headers := headerMapToRequestHeaders inbound.headers
    match bodyRead with
    | .error _ => ⟨⟨500, [], []⟩, none⟩
    | .ok body =>
      match tryIntoRequestMethod inbound.method with
      | .error _ => ⟨⟨500, [], []⟩, none⟩
      | .ok method =>
        let req : HttpClientRequest :=
          { method := method, url := url, headers := headers, body := body }
        match dispatch req with
        | .ok r => ⟨responseFromClient r, some req⟩
        | .error e =>
          ⟨⟨(errorToStatusBody e).1, [], strBytes (errorToStatusBody e).2⟩,
           some req⟩

/-- The proxy handler wired to the round-robin selector as `main` builds
it: runs `RoundRobinSelectServer::execute` on the current counter, feeds
the result to the pipeline and returns the handler output together with
the counter after the call. -/
def proxyRoundRobin (poisoned : Bool) (targets : List String) (counter : Nat)
    (inbound : InboundParts) (bodyRead : Except String (List Nat))
    (dispatch : HttpClientRequest → Except HttpClientError HttpClientResponse) :
    HandlerOutput × Nat :=
  match roundRobinExecute poisoned targets counter with
  | .error e => (proxy_endpoint (.error e) inbound bodyRead dispatch, counter)
  | .ok (server, c) => (proxy_endpoint (.ok server) inbound bodyRead dispatch, c)

/-- Modelled from the spec: the upstream URL the specification mandates,
`target + inboundPath` with the inbound query string appended verbatim
when one is present. Stated separately from the source's composition
(`server ++ path` inside `proxy_endpoint`) to compare the two. -/
def specComposeUpstreamUrl (target : String) (path : String)
    (query : Option String) : String :=
  match query with
  | some q => target ++ path ++ "?" ++ q
  | none => target ++ path

lemma rrOutputs_eq_map (targets : List String) (ht : targets ≠ [])
    (n : Nat) :
    ∀ counter, counter + n ≤ usizeSize →
      rrOutputs targets counter n =
        (List.range n).map
          (fun i => targets.getD ((counter + i) % targets.length) "") := by
  induction n with
  | zero => intro counter _; simp [rrOutputs]
  | succ m ih =>
    intro counter hc
    obtain ⟨t, ts, rfl⟩ : ∃ t ts, targets = t :: ts := by
      cases targets with
      | nil => exact absurd rfl ht
      | cons t ts => exact ⟨t, ts, rfl⟩
    rw [List.range_succ_eq_map]
    simp only [rrOutputs, roundRobinExecute, Bool.false_eq_true, if_false,
      List.map_cons, List.map_map]
    congr 1
    · have hpos : 0 < (t :: ts).length := Nat.succ_pos ts.length
      rw [Nat.add_zero, List.getD_eq_getElem _ _ (Nat.mod_lt _ hpos)]
      simp [List.get_eq_getElem]
    · cases m with
      | zero => simp [rrOutputs]
      | succ m' =>
        have hlt : counter + 1 < usizeSize := by omega
        rw [Nat.mod_eq_of_lt hlt]
        rw [ih (counter + 1) (by omega)]
        apply List.map_congr_left
        intro i _
        have hidx : counter + 1 + i = counter + (i + 1) := by omega
        simp [Function.comp, hidx]

lemma map_getD_eq_rotate (targets : List String) (ht : targets ≠ [])
    (counter : Nat) :
    (List.range targets.length).map
        (fun i => targets.getD ((counter + i) % targets.length) "") =
      targets.rotate (counter % targets.length) := by
  have hpos : 0 < targets.length := List.length_pos.mpr ht
  apply List.ext_getElem
  · simp
  · intro i h1 h2
    simp only [List.getElem_map, List.getElem_range]
    calc targets.getD ((counter + i) % targets.length) ""
        = targets.getD ((i + counter % targets.length) % targets.length) "" := by
          rw [Nat.add_mod_mod, Nat.add_comm i counter]
      _ = targets.get ⟨(i + counter % targets.length) % targets.length,
            Nat.mod_lt _ hpos⟩ := by
          rw [List.getD_eq_getElem _ _ (Nat.mod_lt _ hpos)]
          simp [List.get_eq_getElem]
      _ = (targets.rotate (counter % targets.length)).get ⟨i, by
            simpa using h2⟩ := by
          rw [List.get_rotate]
      _ = (targets.rotate (counter % targets.length))[i] := by
          simp [List.get_eq_getElem]

/-- C1: over a constant healthy set of size N and a run of N successful
round-robin selections whose counter window does not cross the `usize`
wrap (`counter + N ≤ 2 ^ 64`), the outputs are exactly the snapshot
rotated by the starting counter modulo N — each element once, in
snapshot order. The unrestricted claim for every starting counter is
refuted by `roundRobin_wrap_observable`: the wrapping counter restarts
the rotation at index 0, which duplicates an element across the wrap
whenever N does not divide 2 ^ 64. -/
theorem roundRobin_cycle_rotation (targets : List String) (counter : Nat)
    (h1 : targets ≠ []) (h2 : counter + targets.length ≤ usizeSize) :
    rrOutputs targets counter targets.length =
      targets.rotate (counter % targets.length) ∧
    (rrOutputs targets counter targets.length).Perm targets := by
  have hmap := rrOutputs_eq_map targets h1 targets.length counter h2
  have hrot := map_getD_eq_rotate targets h1 counter
  refine ⟨hmap.trans hrot, ?_⟩
  rw [hmap.trans hrot]
  exact targets.rotate_perm _

theorem roundRobin_cycle_rotation_witness :
    rrOutputs ["a", "b"] 7 (["a", "b"] : List String).length =
      (["a", "b"] : List String).rotate (7 % (["a", "b"] : List String).length) ∧
    (rrOutputs ["a", "b"] 7 (["a", "b"] : List String).length).Perm ["a", "b"] :=
  roundRobin_cycle_rotation ["a", "b"] 7 (by decide) (by norm_num [usizeSize])

/-- C1 counterexample: with three healthy targets and the counter at
`usize::MAX`, the wrap is observable — the three consecutive selections
are `["a", "a", "b"]`, not a permutation of the healthy set, so the
claim fails at this starting counter value. -/
theorem roundRobin_wrap_observable :
    rrOutputs ["a", "b", "c"] (2 ^ 64 - 1) 3 = ["a", "a", "b"] ∧
    ¬ (rrOutputs ["a", "b", "c"] (2 ^ 64 - 1) 3).Perm ["a", "b", "c"] := by
  decide

/-- C2 (amended): the upstream URL the handler passes to the HTTP client
is the selected target concatenated with the inbound path only — the
inbound query string is dropped: the handler's output is invariant under
changing the query component. The claim's `path + query` composition is
refuted by `upstream_url_query_counterexample`. -/
theorem upstream_url_drops_query (server : String) (inbound : InboundParts)
    (bodyRead : Except String (List Nat))
    (dispatch : HttpClientRequest → Except HttpClientError HttpClientResponse) :
    (∀ req,
      (proxy_endpoint (.ok server) inbound bodyRead dispatch).upstreamRequest =
        some req → req.url = server ++ inbound.path) ∧
    (∀ q, proxy_endpoint (.ok server) { inbound with query := q } bodyRead
        dispatch =
      proxy_endpoint (.ok server) inbound bodyRead dispatch) := by
  constructor
  · intro req h
    unfold proxy_endpoint at h
    cases bodyRead with
    | error msg => simp at h
    | ok body =>
      cases hm : tryIntoRequestMethod inbound.method with
      | error e => simp [hm] at h
      | ok mth =>
        simp only [hm] at h
        split at h
        · simp only [Option.some.injEq] at h
          rw [← h]
        · simp only [Option.some.injEq] at h
          rw [← h]
  · intro q
    cases inbound
    rfl

theorem upstream_url_drops_query_witness :
    ({ method := .Get, url := "http://t/x", headers := [], body := [] } :
        HttpClientRequest).url = "http://t" ++ "/x" :=
  (upstream_url_drops_query "http://t" ⟨.Get, "/x", none, []⟩ (.ok [])
    (fun _ => .ok ⟨200, [], []⟩)).1
    { method := .Get, url := "http://t/x", headers := [], body := [] }
    (by decide)

/-- C2 counterexample: an inbound request for path `/x` with query
`a=b` is dispatched to `http://t/x`, not to the spec-mandated
`http://t/x?a=b`. -/
theorem upstream_url_query_counterexample :
    (proxy_endpoint (.ok "http://t") ⟨.Get, "/x", some "a=b", []⟩ (.ok [])
        (fun _ => .ok ⟨200, [], []⟩)).upstreamRequest =
      some { method := .Get, url := "http://t/x", headers := [], body := [] } ∧
    "http://t/x" ≠ specComposeUpstreamUrl "http://t" "/x" (some "a=b") := by
  decide

/-- C3: a probe classifies the target healthy exactly when it delivered
a response with status exactly 200 within the 5-second deadline; any
other status, any client error (network, timeout, invalid request), and
expiry of the deadline classify it unhealthy. -/
theorem probe_healthy_iff_status200 : probeTimeoutSecs = 5 ∧
    ∀ r : ProbeResult, (is_server_healthy r = true ↔ r = .response 200) := by
  refine ⟨rfl, ?_⟩
  intro r
  cases r <;> simp [is_server_healthy]

lemma foldl_push_filter (p : String → Bool) :
    ∀ (l : List String) (acc : List String),
      l.foldl (fun acc s => if p s then acc ++ [s] else acc) acc =
        acc ++ l.filter p := by
  intro l
  induction l with
  | nil => intro acc; simp
  | cons t ts ih =>
    intro acc
    simp only [List.foldl_cons, List.filter_cons]
    cases hp : p t with
    | true => simp [hp, ih]
    | false => simp [hp, ih]

/-- C4: the list built by one probe cycle (which then replaces the
healthy set wholesale) is exactly the configured target list filtered by
this cycle's health classification, hence a sublist of the configured
list in configured order, and every element of it is a configured
target. -/
theorem healthy_set_rebuild_filter (allServers : List String)
    (probe : String → ProbeResult) :
    buildHealthyList allServers probe =
      allServers.filter (fun s => is_server_healthy (probe s)) ∧
    (buildHealthyList allServers probe).Sublist allServers ∧
    buildHealthyList allServers probe ⊆ allServers := by
  have hf : buildHealthyList allServers probe =
      allServers.filter (fun s => is_server_healthy (probe s)) := by
    unfold buildHealthyList
    rw [foldl_push_filter]
    simp
  refine ⟨hf, ?_, ?_⟩
  · rw [hf]; exact List.filter_sublist _
  · rw [hf]; exact (List.filter_sublist _).subset

/-- C5 (amended): with an unpoisoned lock, both selectors return
`NoOneIsAlive` exactly when the healthy snapshot is empty; a poisoned
lock yields `PoisonedRead` instead; the handler answers 503 with no
upstream call on any selector error — `PoisonedRead` included, which is
what refutes the claim's "503 exactly on NoHealthyTargets" (see
`poisoned_lock_503_counterexample`); and when selection succeeds a 503
response can only come with an upstream call issued. -/
theorem selector_empty_and_503 :
    (∀ (targets : List String) (counter : Nat),
      roundRobinExecute false targets counter = .error .NoOneIsAlive ↔
        targets = []) ∧
    (∀ (rng : (n : Nat) → 0 < n → Fin n) (targets : List String),
      randomExecute rng false targets = .error .NoOneIsAlive ↔ targets = []) ∧
    (∀ (targets : List String) (counter : Nat),
      roundRobinExecute true targets counter = .error .PoisonedRead) ∧
    (∀ e inbound bodyRead dispatch,
      proxy_endpoint (.error e) inbound bodyRead dispatch =
        ⟨⟨503, [], []⟩, none⟩) ∧
    (∀ server inbound bodyRead dispatch,
      (proxy_endpoint (.ok server) inbound bodyRead dispatch).response.status =
          503 →
        (proxy_endpoint (.ok server) inbound bodyRead
          dispatch).upstreamRequest ≠ none) := by
  refine ⟨?_, ?_, ?_, ?_, ?_⟩
  · intro targets counter
    cases targets <;> simp [roundRobinExecute]
  · intro rng targets
    by_cases h : targets = [] <;> simp [randomExecute, h]
  · intro targets counter
    rfl
  · intro e inbound bodyRead dispatch
    rfl
  · intro server inbound bodyRead dispatch h
    unfold proxy_endpoint at h ⊢
    cases bodyRead with
    | error msg => simp at h
    | ok body =>
      cases hm : tryIntoRequestMethod inbound.method with
      | error e => simp [hm] at h
      | ok m =>
        simp only [hm] at h ⊢
        cases hd : dispatch _ with
        | ok r => simp [hd]
        | error e =>
          simp only [hd] at h
          cases e <;> simp [errorToStatusBody] at h

theorem selector_empty_and_503_witness :
    (proxy_endpoint (.ok "http://t") ⟨.Get, "/", none, []⟩ (.ok [])
        (fun _ => .ok ⟨503, [], []⟩)).upstreamRequest ≠ none :=
  selector_empty_and_503.2.2.2.2 "http://t" ⟨.Get, "/", none, []⟩ (.ok [])
    (fun _ => .ok ⟨503, [], []⟩) (by decide)

/-- C5 counterexample: with a poisoned lock and a non-empty healthy
list, the round-robin selector returns `PoisonedRead` — not
`NoHealthyTargets` — yet the handler still responds 503, so the
handler's 503 is not equivalent to the selector's `NoHealthyTargets`
error. -/
theorem poisoned_lock_503_counterexample :
    roundRobinExecute true ["http://a"] 0 = .error .PoisonedRead ∧
    SelectError.PoisonedRead ≠ SelectError.NoOneIsAlive ∧
    (proxyRoundRobin true ["http://a"] 0 ⟨.Get, "/", none, []⟩ (.ok [])
        (fun _ => .ok ⟨200, [], []⟩)).1.response.status = 503 :=
  ⟨rfl, by decide, rfl⟩

/-- C6: when dispatch fails, the handler's response is the image of the
error variant under the `From<HttpClientError>` mapping — Timeout to 504
with body "Timeout", Network to 502 with body "Network error",
InvalidRequest to 400 with body "Invalid request" — and those three
variants are exhaustive. -/
theorem client_error_status_mapping (server : String)
    (inbound : InboundParts) (body : List Nat) (m : RequestMethod)
    (dispatch : HttpClientRequest → Except HttpClientError HttpClientResponse)
    (e : HttpClientError)
    (hmethod : tryIntoRequestMethod inbound.method = .ok m)
    (hdispatch : dispatch
      { method := m, url := server ++ inbound.path,
        headers := headerMapToRequestHeaders inbound.headers, body := body } =
        .error e) :
    proxy_endpoint (.ok server) inbound (.ok body) dispatch =
      ⟨⟨(errorToStatusBody e).1, [], strBytes (errorToStatusBody e).2⟩,
       some { method := m, url := server ++ inbound.path,
              headers := headerMapToRequestHeaders inbound.headers,
              body := body }⟩ ∧
    errorToStatusBody .Timeout = (504, "Timeout") ∧
    (∀ s, errorToStatusBody (.Network s) = (502, "Network error")) ∧
    (∀ s, errorToStatusBody (.InvalidRequest s) = (400, "Invalid request")) ∧
    (∀ err : HttpClientError,
      err = .Timeout ∨ (∃ s, err = .Network s) ∨
        (∃ s, err = .InvalidRequest s)) := by
  refine ⟨?_, rfl, fun s => rfl, fun s => rfl, ?_⟩
  · unfold proxy_endpoint
    simp only [hmethod, hdispatch]
  · intro err
    cases err with
    | Network s => exact .inr (.inl ⟨s, rfl⟩)
    | InvalidRequest s => exact .inr (.inr ⟨s, rfl⟩)
    | Timeout => exact .inl rfl

theorem client_error_status_mapping_witness :
    proxy_endpoint (.ok "http://t") ⟨.Get, "/", none, []⟩ (.ok [])
        (fun _ => .error .Timeout) =
      ⟨⟨(errorToStatusBody .Timeout).1, [],
        strBytes (errorToStatusBody .Timeout).2⟩,
       some { method := .Get, url := "http://t" ++ "/",
              headers := headerMapToRequestHeaders [], body := [] }⟩ :=
  (client_error_status_mapping "http://t" ⟨.Get, "/", none, []⟩ [] .Get
    (fun _ => .error .Timeout) .Timeout rfl rfl).1

/-- C7: translation of the inbound method succeeds exactly for
GET/POST/PUT/DELETE/PATCH, a successful translation round-trips to the
identical wire method, and for any other method the handler responds
500 Internal Server Error without issuing an upstream call. -/
theorem unsupported_method_500 (m : HttpMethod) :
    ((∃ rm, tryIntoRequestMethod m = .ok rm) ↔
      (m = .Get ∨ m = .Post ∨ m = .Put ∨ m = .Delete ∨ m = .Patch)) ∧
    (∀ rm, tryIntoRequestMethod m = .ok rm → reqwestMethodFrom rm = m) ∧
    (∀ (inbound : InboundParts) (e : RequestError),
      inbound.method = m → tryIntoRequestMethod m = .error e →
      ∀ (server : String) (body : List Nat)
        (dispatch : HttpClientRequest →
          Except HttpClientError HttpClientResponse),
        proxy_endpoint (.ok server) inbound (.ok body) dispatch =
          ⟨⟨500, [], []⟩, none⟩) := by
  refine ⟨?_, ?_, ?_⟩
  · cases m <;> simp [tryIntoRequestMethod]
  · intro rm h
    cases m <;> simp [tryIntoRequestMethod] at h <;>
      simp [← h, reqwestMethodFrom]
  · intro inbound e hm he server body dispatch
    unfold proxy_endpoint
    rw [hm, he]

theorem unsupported_method_500_witness :
    proxy_endpoint (.ok "http://t") ⟨.Options, "/", none, []⟩ (.ok [])
        (fun _ => .ok ⟨200, [], []⟩) = ⟨⟨500, [], []⟩, none⟩ :=
  (unsupported_method_500 .Options).2.2 ⟨.Options, "/", none, []⟩
    (.UnsupportedMethod "OPTIONS") rfl rfl "http://t" []
    (fun _ => .ok ⟨200, [], []⟩)

/-- C8 (amended): the status returned to the caller equals the upstream
status verbatim whenever it lies in the `http` crate's validity range
`[100, 1000)` — in particular for every status in 100–599 — and falls
back to 200 only outside that range; headers and body are forwarded
unchanged. The claim's fallback-above-599 is refuted by
`status600_forwarded_counterexample`. -/
theorem upstream_status_forwarding (r : HttpClientResponse) :
    ((responseFromClient r).status =
      if 100 ≤ r.status ∧ r.status < 1000 then r.status else 200) ∧
    (responseFromClient r).headers = r.headers ∧
    (responseFromClient r).body = r.body := by
  refine ⟨?_, rfl, rfl⟩
  unfold responseFromClient statusFromU16
  split <;> simp

/-- C8 counterexample: an upstream status of 600 — outside the claim's
valid range 100–599 — is forwarded verbatim instead of falling back to
200. -/
theorem status600_forwarded_counterexample :
    (responseFromClient ⟨600, [], []⟩).status = 600 ∧
    (responseFromClient ⟨600, [], []⟩).status ≠ 200 := by
  decide

lemma assocInsert_of_not_mem (acc : List (String × String)) (k v : String)
    (h : ∀ q ∈ acc, q.1 ≠ k) : assocInsert acc k v = acc ++ [(k, v)] := by
  unfold assocInsert
  rw [if_neg]
  simp only [List.any_eq_true, not_exists, not_and]
  intro q hq
  simpa using h q hq

lemma nodup_keys_unique : ∀ (hm : List (String × HeaderValue)),
    (hm.map Prod.fst).Nodup →
    ∀ k v w, (k, v) ∈ hm → (k, w) ∈ hm → v = w := by
  intro hm
  induction hm with
  | nil => intro _ k v w hv _; simp at hv
  | cons p rest ih =>
    intro hnd k v w hv hw
    simp only [List.map_cons, List.nodup_cons] at hnd
    rcases List.mem_cons.mp hv with hv1 | hv1 <;>
      rcases List.mem_cons.mp hw with hw1 | hw1
    · rw [← hv1] at hw1
      injection hw1 with _ h2
      exact h2.symm
    · exfalso; apply hnd.1
      have : k = p.1 := by cases hv1; rfl
      exact this ▸ List.mem_map.mpr ⟨(k, w), hw1, rfl⟩
    · exfalso; apply hnd.1
      have : k = p.1 := by cases hw1; rfl
      exact this ▸ List.mem_map.mpr ⟨(k, v), hv1, rfl⟩
    · exact ih hnd.2 k v w hv1 hw1

lemma headers_foldl_general :
    ∀ (hm : List (String × HeaderValue)) (acc : List (String × String)),
    (hm.map Prod.fst).Nodup →
    (∀ p ∈ hm, ∀ q ∈ acc, q.1 ≠ p.1) →
    hm.foldl
        (fun acc p =>
          match p.2.toStr with
          | some s => assocInsert acc p.1 s
          | none => acc)
        acc =
      acc ++ hm.filterMap (fun p => p.2.toStr.map (fun s => (p.1, s))) := by
  intro hm
  induction hm with
  | nil => intro acc _ _; simp
  | cons p rest ih =>
    intro acc hnd hdis
    simp only [List.map_cons, List.nodup_cons] at hnd
    simp only [List.foldl_cons, List.filterMap_cons]
    cases hs : p.2.toStr with
    | none =>
      simp only [hs]
      rw [ih acc hnd.2 (fun q hq => hdis q (List.mem_cons_of_mem _ hq))]
      simp
    | some s =>
      simp only [hs]
      rw [assocInsert_of_not_mem acc p.1 s
        (fun q hq => hdis p (List.mem_cons_self _ _) q hq)]
      rw [ih (acc ++ [(p.1, s)]) hnd.2 ?_]
      · simp
      · intro r hr q hq
        rcases List.mem_append.mp hq with hq1 | hq1
        · exact hdis r (List.mem_cons_of_mem _ hr) q hq1
        · simp only [List.mem_singleton] at hq1
          subst hq1
          intro hcontra
          exact hnd.1 (hcontra ▸ List.mem_map.mpr ⟨r, hr, rfl⟩)

lemma headerMap_filterMap (hm : List (String × HeaderValue))
    (hnd : (hm.map Prod.fst).Nodup) :
    headerMapToRequestHeaders hm =
      hm.filterMap (fun p => p.2.toStr.map (fun s => (p.1, s))) := by
  unfold headerMapToRequestHeaders
  rw [headers_foldl_general hm [] hnd (by simp)]
  simp

/-- C9 (amended): provided the upstream header names are pairwise
distinct, the converted header map is exactly the upstream sequence with
the invalid-string values dropped: every header whose value fails
`to_str` is dropped silently, every header whose value converts is
present under its name (already lowercase in a `HeaderMap`) with the
converted value, and the `From<HttpClientResponse>` conversion forwards
the kept map unchanged. Without the distinctness proviso the claim
fails: collecting into a `HashMap` keeps only the last occurrence of a
repeated name (see `duplicate_header_lost_counterexample`). -/
theorem response_headers_utf8_forwarding (hm : List (String × HeaderValue))
    (hnd : (hm.map Prod.fst).Nodup) :
    headerMapToRequestHeaders hm =
      hm.filterMap (fun p => p.2.toStr.map (fun s => (p.1, s))) ∧
    (∀ k v s, (k, v) ∈ hm → v.toStr = some s →
      (k, s) ∈ headerMapToRequestHeaders hm) ∧
    (∀ k v, (k, v) ∈ hm → v.toStr = none →
      ∀ s, (k, s) ∉ headerMapToRequestHeaders hm) ∧
    (∀ st b,
      (responseFromClient ⟨st, headerMapToRequestHeaders hm, b⟩).headers =
        headerMapToRequestHeaders hm) := by
  have hfm := headerMap_filterMap hm hnd
  refine ⟨hfm, ?_, ?_, fun st b => rfl⟩
  · intro k v s hmem hs
    rw [hfm]
    exact List.mem_filterMap.mpr ⟨(k, v), hmem, by simp [hs]⟩
  · intro k v hmem hs s hcontra
    rw [hfm] at hcontra
    obtain ⟨p, hp, hfp⟩ := List.mem_filterMap.mp hcontra
    obtain ⟨s', hs', heq⟩ := Option.map_eq_some'.mp hfp
    have hk : p.1 = k := by cases heq; rfl
    have hpv : p.2 = v := by
      apply nodup_keys_unique hm hnd k p.2 v ?_ hmem
      rw [← hk]
      exact hp
    rw [hpv, hs] at hs'
    exact Option.noConfusion hs'

theorem response_headers_utf8_forwarding_witness :
    headerMapToRequestHeaders
        [("content-type", ⟨[97], some "application/json"⟩),
         ("x-bad", ⟨[255, 254], none⟩)] =
      ([("content-type", ⟨[97], some "application/json"⟩),
        ("x-bad", ⟨[255, 254], none⟩)] :
          List (String × HeaderValue)).filterMap
        (fun p => p.2.toStr.map (fun s => (p.1, s))) :=
  (response_headers_utf8_forwarding
    [("content-type", ⟨[97], some "application/json"⟩),
     ("x-bad", ⟨[255, 254], none⟩)] (by decide)).1

/-- C9 counterexample: two upstream headers repeat the name
`set-cookie`, both with values the UTF-8 filter keeps; the `HashMap`
collection retains only the last, so the first kept header is lost,
contradicting "no header kept by the UTF-8 filter is lost". -/
theorem duplicate_header_lost_counterexample :
    headerMapToRequestHeaders
        [("set-cookie", ⟨[97], some "a"⟩), ("set-cookie", ⟨[98], some "b"⟩)] =
      [("set-cookie", "b")] ∧
    ("set-cookie", (⟨[97], some "a"⟩ : HeaderValue)) ∈
      ([("set-cookie", ⟨[97], some "a"⟩), ("set-cookie", ⟨[98], some "b"⟩)] :
        List (String × HeaderValue)) ∧
    HeaderValue.toStr ⟨[97], some "a"⟩ ≠ none ∧
    ("set-cookie", "a") ∉ headerMapToRequestHeaders
        [("set-cookie", ⟨[97], some "a"⟩), ("set-cookie", ⟨[98], some "b"⟩)] := by
  decide

/-- C10: with a non-empty healthy set and an unpoisoned lock, one call
to the round-robin-wired handler always advances the counter by exactly
one (mod 2 ^ 64) — selection happens before body buffering and before
method validation — even when the request then fails with 500 on a
body-read failure or an unsupported method, in which cases no upstream
call is issued. -/
theorem selection_before_validation (targets : List String) (counter : Nat)
    (inbound : InboundParts) (bodyRead : Except String (List Nat))
    (dispatch : HttpClientRequest → Except HttpClientError HttpClientResponse)
    (h : targets ≠ []) :
    (proxyRoundRobin false targets counter inbound bodyRead dispatch).2 =
      (counter + 1) % usizeSize ∧
    (∀ msg, bodyRead = .error msg →
      (proxyRoundRobin false targets counter inbound bodyRead dispatch).1 =
        ⟨⟨500, [], []⟩, none⟩) ∧
    (∀ e bodyBytes, tryIntoRequestMethod inbound.method = .error e →
      bodyRead = .ok bodyBytes →
      (proxyRoundRobin false targets counter inbound bodyRead dispatch).1 =
        ⟨⟨500, [], []⟩, none⟩) := by
  obtain ⟨t, ts, rfl⟩ : ∃ t ts, targets = t :: ts := by
    cases targets with
    | nil => exact absurd rfl h
    | cons t ts => exact ⟨t, ts, rfl⟩
  refine ⟨rfl, ?_, ?_⟩
  · intro msg hb
    subst hb
    rfl
  · intro e bodyBytes he hb
    subst hb
    simp only [proxyRoundRobin, roundRobinExecute, Bool.false_eq_true, if_false,
      proxy_endpoint, he]

theorem selection_before_validation_witness :
    (proxyRoundRobin false ["http://a"] 3 ⟨.Options, "/", none, []⟩ (.ok [])
        (fun _ => .ok ⟨200, [], []⟩)).2 = (3 + 1) % usizeSize :=
  (selection_before_validation ["http://a"] 3 ⟨.Options, "/", none, []⟩
    (.ok []) (fun _ => .ok ⟨200, [], []⟩) (by decide)).1
